import Mathlib

/-!
Verification of the local job service
(`sdks/python/apache_beam/runners/portability/local_job_service.py`).

The Python source is shallowly embedded: mutable objects become explicit
state records threaded through pure functions, the external collaborators
(artifact registry, execution engine, worker subprocess) become outcome
parameters, and exceptions become `Except` / explicit "raised" components.
A few operations live in `abstract_job_service.py` / `environments.py`,
which are not part of this tree; those are modelled from the spec and
marked as such in their doc comments.
-/

namespace LocalJobService

/-! ## Job messages and the bounded log cache (`JobLogQueues`) -/

/-- A `beam_job_api_pb2.JobMessage`: `message_id`, `time`, `importance`,
`message_text`.  Importance levels are the proto enum values
(DEBUG = 1, DETAILED = 2, BASIC = 3, WARNING = 4, ERROR = 5). -/
structure JobMessage where
  message_id : String
  time : String
  importance : Nat
  message_text : String
deriving DecidableEq, Repr

def JOB_MESSAGE_DEBUG : Nat := 1
def JOB_MESSAGE_DETAILED : Nat := 2
def JOB_MESSAGE_BASIC : Nat := 3
def JOB_MESSAGE_WARNING : Nat := 4
def JOB_MESSAGE_ERROR : Nat := 5

/-- `JobLogQueues._cache_size` (fixed at 10 in `__init__`). -/
def cacheSize : Nat := 10

/-- `min(m.importance for m in cache)`: Python's `min` folds the iterator
from the left.  (Only ever called on a non-empty cache in the source,
where the cache already holds `_cache_size > 0` entries.) -/
def minImportance : List JobMessage → Nat
  | [] => 0
  | m :: ms => ms.foldl (fun a x => min a x.importance) m.importance

/-- The cache-mutation part of `JobLogQueues.put`: while below
`_cache_size` append; once full, admit only records whose importance is
`>=` the current minimum, appending the new record and then deleting the
first record (in cache order, new record included in the scan) whose
importance equals that minimum. -/
def putCache (cache : List JobMessage) (msg : JobMessage) : List JobMessage :=
  if cache.length < cacheSize then
    cache ++ [msg]
  else
    let minLevel := minImportance cache
    if minLevel ≤ msg.importance then
      (cache ++ [msg]).eraseP (fun m => m.importance == minLevel)
    else
      cache

/-- Full `JobLogQueues` state: registered subscriber queues plus the cache. -/
structure JobLogQueues where
  queues : List (List JobMessage)
  cache : List JobMessage
deriving DecidableEq, Repr

/-- `JobLogQueues.put`: mutate the cache per `putCache`, then push the
message to every registered subscriber queue. -/
def JobLogQueues.put (q : JobLogQueues) (msg : JobMessage) : JobLogQueues :=
  { q with
    cache := putCache q.cache msg
    queues := q.queues.map (fun qu => qu ++ [msg]) }

/-- `JobLogQueues.append`: register a fresh (empty) subscriber queue. -/
def JobLogQueues.appendQueue (q : JobLogQueues) : JobLogQueues :=
  { q with queues := q.queues ++ [[]] }

/-- A sample message of the given importance, for concrete evaluations. -/
def wMsg (k : Nat) : JobMessage :=
  { message_id := "", time := "", importance := k, message_text := "" }

/-- A sample full cache (ten records, minimum importance 1). -/
def wCache : List JobMessage :=
  [wMsg 3, wMsg 1, wMsg 2, wMsg 1, wMsg 4, wMsg 5, wMsg 2, wMsg 3, wMsg 1, wMsg 2]

/-! ## Environments and dependency sets -/

/-- An `ArtifactInformation` proto; its contents are never inspected by the
job service, so it is kept opaque. -/
structure ArtifactInformation where
  payload : String
deriving DecidableEq, Repr

/-- Modelled from the spec: a concrete (non-composite) environment — its
non-dependency payload plus its ordered dependency list (§3, §4.2).  The
`Environment` proto itself lives outside this tree. -/
structure ConcreteEnv where
  payload : String
  dependencies : List ArtifactInformation
deriving DecidableEq, Repr

/-- Modelled from the spec: an environment is either concrete or a
composite "any of" holding an ordered list of concrete alternatives
(§2, §4.2, §9). -/
inductive Environment where
  | single (e : ConcreteEnv)
  | anyOf (alts : List ConcreteEnv)
deriving DecidableEq, Repr

/-- Modelled from the spec: `environments.expand_anyof_environments` (not
in this tree) expands a composite environment into its ordered list of
concrete alternatives; a non-composite environment yields exactly one
entry (§4.2). -/
def expand_anyof_environments : Environment → List ConcreteEnv
  | .single e => [e]
  | .anyOf alts => alts

/-- Modelled from the spec: `AnyOfEnvironment.create_proto` (not in this
tree) wraps an ordered list of alternatives back into one composite
environment (§4.2). -/
def anyOfCreateProto (alts : List ConcreteEnv) : Environment :=
  .anyOf alts

/-- The environment mapping `pipeline.components.environments`.  Python
dict iteration order is insertion order, so it is embedded as an ordered
association list with (in well-formed pipelines) distinct ids. -/
abbrev EnvMap := List (String × Environment)

/-- The mapping of `(env_id, index)` keys to dependency sets produced by
`_extract_dependency_sets` and consumed by `_update_dependency_sets`. -/
abbrev DepsMap := List ((String × Nat) × List ArtifactInformation)

/-- `_extract_dependency_sets`: one entry per `(env_id, ix)` over the
expansion of each environment, holding that alternative's current
dependency list. -/
def extract_dependency_sets (envs : EnvMap) : DepsMap :=
  envs.flatMap (fun p =>
    (expand_anyof_environments p.2).enum.map
      (fun q => ((p.1, q.1), q.2.dependencies)))

/-- `resolved_deps[env_id, ix]`: dictionary lookup, `none` standing for
Python's `KeyError`. -/
def lookupDeps (resolved : DepsMap) (k : String × Nat) :
    Option (List ArtifactInformation) :=
  (resolved.find? (fun p => decide (p.1 = k))).map (·.2)

/-- `del sub_env.dependencies[:]` followed by
`sub_env.dependencies.extend(resolved_deps[env_id, ix])`: the dependency
list is replaced wholesale. -/
def updateConcrete (sub : ConcreteEnv) (deps : List ArtifactInformation) :
    ConcreteEnv :=
  { sub with dependencies := deps }

/-- The inner loop of `_update_dependency_sets`: rewrite each expanded
alternative's dependency list from the resolved mapping.  A missing key
(Python `KeyError`) aborts with `none`. -/
def updateSubEnvs (id : String) (resolved : DepsMap) :
    List (Nat × ConcreteEnv) → Option (List ConcreteEnv)
  | [] => some []
  | q :: rest =>
    match lookupDeps resolved (id, q.1) with
    | none => none
    | some deps =>
      match updateSubEnvs id resolved rest with
      | none => none
      | some tl => some (updateConcrete q.2 deps :: tl)

/-- One iteration of `_update_dependency_sets`: if exactly one alternative
resulted the environment is replaced by it directly, otherwise a composite
is rebuilt around all alternatives in original order. -/
def updateOneEnv (id : String) (env : Environment) (resolved : DepsMap) :
    Option Environment :=
  match updateSubEnvs id resolved (expand_anyof_environments env).enum with
  | none => none
  | some [s] => some (.single s)
  | some newSubs => some (anyOfCreateProto newSubs)

/-- `_update_dependency_sets`: update every environment of the mapping in
place.  (Python mutates the protos during iteration; a `KeyError` midway
would leave earlier entries already rewritten — the `none` result is only
ever produced, and only ever reasoned about, when some lookup fails.) -/
def update_dependency_sets (envs : EnvMap) (resolved : DepsMap) :
    Option EnvMap :=
  match envs with
  | [] => some []
  | p :: rest =>
    match updateOneEnv p.1 p.2 resolved with
    | none => none
    | some env' =>
      match update_dependency_sets rest resolved with
      | none => none
      | some rest' => some ((p.1, env') :: rest')

/-- An environment whose stored shape survives expansion followed by
recombination: concrete environments always do; a composite does unless it
holds exactly one alternative (in which case `_update_dependency_sets`
replaces it by the bare alternative). -/
def shapePreserved : Environment → Bool
  | .single _ => true
  | .anyOf alts => alts.length != 1

/-! ## `_update_dependencies` (dependency resolution before execution) -/

/-- Exceptions, identified by a tag; `workerExit` is the
`RuntimeError('Worker subprocess exited with return code %s')`. -/
inductive Err where
  | exc (tag : String)
  | workerExit (rc : Int)
deriving DecidableEq, Repr

/-- Outcome of `self._artifact_service.resolved_deps(self._job_id,
timeout=0)` — the artifact registry is an external collaborator: it may
raise `concurrent.futures.TimeoutError`, raise some other exception, or
return a resolved mapping. -/
inductive ResolveOutcome where
  | timeout
  | failure (e : Err)
  | resolved (deps : DepsMap)
deriving DecidableEq, Repr

/-- The `ProvisionInfo` proto inside `ExtendedProvisionInfo`: only
`retrieval_token` is touched by the job service. -/
structure ProvisionInfo where
  retrieval_token : String
  pipeline_options : String
deriving DecidableEq, Repr

/-- `self._provision_info.provision_info.ClearField('retrieval_token')`:
proto scalar fields reset to their default (empty string). -/
def clearRetrievalToken (p : ProvisionInfo) : ProvisionInfo :=
  { p with retrieval_token := "" }

/-- `BeamJob._update_dependencies`: call the registry's resolve (its
argument is evaluated before `_update_dependency_sets` touches anything),
rewrite the environments, then clear `retrieval_token`; a
`concurrent.futures.TimeoutError` anywhere in the `try` is swallowed and
everything is left as it was; any other exception propagates (third
component).  A `KeyError` out of the rewrite also propagates — it is not a
`TimeoutError`. -/
def update_dependencies (envs : EnvMap) (prov : ProvisionInfo)
    (out : ResolveOutcome) : EnvMap × ProvisionInfo × Option Err :=
  match out with
  | .timeout => (envs, prov, none)
  | .failure e => (envs, prov, some e)
  | .resolved deps =>
    match update_dependency_sets envs deps with
    | none => (envs, prov, some (Err.exc "KeyError"))
    | some envs' => (envs', clearRetrievalToken prov, none)

/-! ## The job lifecycle state machine -/

/-- The states of `beam_job_api_pb2.JobState` used by this service, plus
the unset sentinel (§3). -/
inductive JobState where
  | UNSPECIFIED
  | STARTING
  | RUNNING
  | DONE
  | FAILED
  | CANCELLING
  | CANCELLED
deriving DecidableEq, Repr

/-- Modelled from the spec: `AbstractBeamJob.is_terminal_state` lives in
`abstract_job_service.py`, outside this tree.  Per §3 the terminal states
are `DONE`, `FAILED` and `CANCELLED`. -/
def is_terminal_state : JobState → Bool
  | .DONE => true
  | .FAILED => true
  | .CANCELLED => true
  | _ => false

/-- The observable state of one `BeamJob`: lifecycle state and history,
registered state subscriber queues (each embedded as the list of events it
has received), the log fan-out, the log handler's id counter, and the
mutable pipeline environments / provisioning info. -/
structure BeamJobState where
  current_state : JobState
  state_history : List (JobState × Nat)
  state_queues : List (List (JobState × Nat))
  log_queues : JobLogQueues
  last_log_id : Nat
  envs : EnvMap
  provision_info : ProvisionInfo
deriving DecidableEq, Repr

/-- Modelled from the spec: `AbstractBeamJob.set_state` (outside this
tree) — if `new_state` equals the current state nothing happens and no
timestamp is returned; otherwise `(new_state, now)` is recorded into the
history, the current state is updated, and the timestamp is returned
(§4.1). -/
def abstract_set_state (j : BeamJobState) (new_state : JobState) (now : Nat) :
    BeamJobState × Option Nat :=
  if new_state = j.current_state then (j, none)
  else
    ({ j with
        current_state := new_state
        state_history := j.state_history ++ [(new_state, now)] },
     some now)

/-- `BeamJob.set_state`: run the base-class transition; when it yields a
timestamp, push `(new_state, timestamp)` to every registered state
subscriber queue. -/
def set_state (j : BeamJobState) (new_state : JobState) (now : Nat) :
    BeamJobState :=
  match abstract_set_state j new_state now with
  | (j', none) => j'
  | (j', some t) =>
    { j' with
        state_queues := j'.state_queues.map (fun q => q ++ [(new_state, t)]) }

/-- A whole sequence of `set_state` calls, each with its timestamp. -/
def run_set_states (j : BeamJobState) : List (JobState × Nat) → BeamJobState
  | [] => j
  | (s, t) :: rest => run_set_states (set_state j s t) rest

/-- The subsequence of distinct consecutive states of a request sequence,
starting from the given current state: exactly the events `set_state`
publishes. -/
def distinctConsecutive (cur : JobState) :
    List (JobState × Nat) → List (JobState × Nat)
  | [] => []
  | (s, t) :: rest =>
    if s = cur then distinctConsecutive cur rest
    else (s, t) :: distinctConsecutive s rest

/-- `BeamJob.cancel`: nothing if the current state is terminal, otherwise
`CANCELLING` followed immediately by `CANCELLED`. -/
def cancel (j : BeamJobState) (t1 t2 : Nat) : BeamJobState :=
  if is_terminal_state j.current_state then j
  else set_state (set_state j .CANCELLING t1) .CANCELLED t2

/-- The stream loop shared by `get_state_stream`: yield events until (and
including) the first terminal-state event, then stop. -/
def takeThroughTerminal : List (JobState × Nat) → List (JobState × Nat)
  | [] => []
  | e :: rest =>
    if is_terminal_state e.1 then [e]
    else e :: takeThroughTerminal rest

/-- Modelled from the spec: `AbstractBeamJob.with_state_history` (outside
this tree) chains the recorded state history before the live event stream
(§4.1). -/
def with_state_history (history live : List (JobState × Nat)) :
    List (JobState × Nat) :=
  history ++ live

/-- `BeamJob.get_state_stream`: a fresh queue is registered, then the
history-prefixed queue is drained, stopping after the first terminal
event.  `live` is the (finite prefix of the) sequence of events later
pushed to the registered queue. -/
def get_state_stream (j : BeamJobState) (live : List (JobState × Nat)) :
    List (JobState × Nat) :=
  takeThroughTerminal (with_state_history j.state_history live)

/-! ## `_run_job` (the asynchronous run sequence) -/

/-- The ambient outcomes and clock readings of one `_run_job` execution:
the artifact registry's resolve outcome, whether
`merge_compatible_environments` raises (an external collaborator; its
environment-merging effect is not observed by any claim and is elided),
the engine's outcome (`_invoke_runner` + `wait_until_finish` + the mapping
of the engine's terminal state into `JobState`), the transition
timestamps, the formatted wall-clock string, the formatted completion info
line, and `traceback.format_exc()` for whatever exception is active. -/
structure RunEnv where
  resolve : ResolveOutcome
  merge : Option Err
  runner : Except Err JobState
  tRunning : Nat
  tFinal : Nat
  nowStr : String
  infoText : String
  traceback : Err → String

/-- `JobLogHandler._next_id` plus `emit` for a record logged from the
job's own thread (the handler is registered and `_logged_thread` matches
inside `_run_job`): build a `JobMessage` from the record and `put` it to
the job's log queues. -/
def handlerEmit (j : BeamJobState) (importance : Nat) (text timeStr : String) :
    BeamJobState :=
  { j with
      last_log_id := j.last_log_id + 1
      log_queues := j.log_queues.put
        { message_id := toString (j.last_log_id + 1)
          time := timeStr
          importance := importance
          message_text := text } }

/-- `BeamJob._run_job`: update dependencies and normalize environments
(both outside the `try`), then under the `try` transition to `RUNNING`,
invoke the engine and wait; on success a completion line is logged (the
root-logger handler is active, `LOG_LEVEL_MAP[INFO] = BASIC`) and the
engine's mapped terminal state is set; on an engine exception an explicit
error message holding the full traceback is `put`, then
`_LOGGER.exception('Error running pipeline.')` is itself captured by the
registered handler as a second error-importance message (the default
formatter appends the active traceback), the state is forced to `FAILED`,
and the exception is re-raised.  The second component is the exception
propagating out of the background thread. -/
def run_job (j : BeamJobState) (env : RunEnv) : BeamJobState × Option Err :=
  let ud := update_dependencies j.envs j.provision_info env.resolve
  let j1 := { j with envs := ud.1, provision_info := ud.2.1 }
  match ud.2.2 with
  | some e => (j1, some e)
  | none =>
    match env.merge with
    | some e => (j1, some e)
    | none =>
      let j2 := set_state j1 .RUNNING env.tRunning
      match env.runner with
      | .ok finalState =>
        let j3 := handlerEmit j2 JOB_MESSAGE_BASIC env.infoText env.nowStr
        (set_state j3 finalState env.tFinal, none)
      | .error e =>
        let j3 := handlerEmit j2 JOB_MESSAGE_ERROR (env.traceback e) env.nowStr
        let j4 := handlerEmit j3 JOB_MESSAGE_ERROR
          ("Error running pipeline.\n" ++ env.traceback e) env.nowStr
        (set_state j4 .FAILED env.tFinal, some e)

/-! ## `SubprocessSdkWorker.run` -/

instance {ε α : Type} [DecidableEq ε] [DecidableEq α] :
    DecidableEq (Except ε α)
  | .ok a, .ok b =>
    if h : a = b then .isTrue (by rw [h])
    else .isFalse (by intro hh; cases hh; exact h rfl)
  | .ok _, .error _ => .isFalse (by intro h; cases h)
  | .error _, .ok _ => .isFalse (by intro h; cases h)
  | .error a, .error b =>
    if h : a = b then .isTrue (by rw [h])
    else .isFalse (by intro hh; cases hh; exact h rfl)

/-- What the spawned worker process does: `p.wait()` either returns the
exit code or raises, and at the `finally` block `p.poll()` reports whether
the child is still alive. -/
structure ProcBehavior where
  wait : Except Err Int
  aliveAtFinally : Bool
deriving DecidableEq, Repr

/-- The observable outcome of `SubprocessSdkWorker.run`: the exception it
raises (if any), whether `p.kill()` was invoked, and whether
`logging_server.stop(0)` ran. -/
structure WorkerRunResult where
  raised : Option Err
  killed : Bool
  loggingServerStopped : Bool
deriving DecidableEq, Repr

/-- `SubprocessSdkWorker.run` after the spawn: wait for the child; a
truthy (non-zero) return code raises `RuntimeError` carrying the code; the
`finally` block kills the child if `p.poll()` reports it alive and always
stops the logging sidecar server. -/
def subprocess_worker_run (b : ProcBehavior) : WorkerRunResult :=
  match b.wait with
  | .error e =>
    { raised := some e, killed := b.aliveAtFinally, loggingServerStopped := true }
  | .ok rc =>
    { raised := if rc ≠ 0 then some (Err.workerExit rc) else none
      killed := b.aliveAtFinally
      loggingServerStopped := true }

/-! ## Concrete fixtures for witnesses and counterexamples -/

/-- A concrete environment mapping whose composite environment has exactly
one alternative. -/
def cSingletonAnyOf : EnvMap :=
  [("e", .anyOf [{ payload := "d", dependencies := [] }])]

/-- A concrete well-shaped environment mapping: one concrete environment
and one composite with two alternatives. -/
def cGoodEnvs : EnvMap :=
  [("e1", .single { payload := "a", dependencies := [{ payload := "x" }] }),
   ("e2", .anyOf [{ payload := "b", dependencies := [] },
                  { payload := "c", dependencies := [{ payload := "y" }] }])]

/-- A concrete provisioning info with a non-empty retrieval token. -/
def cProv : ProvisionInfo :=
  { retrieval_token := "tok", pipeline_options := "opts" }

/-- A concrete job state ready to run. -/
def cJob : BeamJobState :=
  { current_state := .STARTING
    state_history := [(.STARTING, 0)]
    state_queues := [[]]
    log_queues := { queues := [[]], cache := [] }
    last_log_id := 0
    envs := cGoodEnvs
    provision_info := cProv }

/-- A concrete job already in a terminal state. -/
def cJobDone : BeamJobState :=
  { cJob with current_state := .DONE, state_history := [(.STARTING, 0), (.RUNNING, 1), (.DONE, 2)] }

/-- A concrete job in the `RUNNING` state. -/
def cJobRunning : BeamJobState :=
  { cJob with current_state := .RUNNING, state_history := [(.STARTING, 0), (.RUNNING, 1)] }

/-- A concrete run environment whose dependency resolution raises a
non-timeout exception. -/
def cRunEnvDepsFail : RunEnv :=
  { resolve := .failure (.exc "boom")
    merge := none
    runner := .ok .DONE
    tRunning := 1
    tFinal := 2
    nowStr := "now"
    infoText := "Completed job."
    traceback := fun _ => "Traceback: boom" }

/-- A concrete run environment whose environment normalization raises. -/
def cRunEnvMergeFail : RunEnv :=
  { resolve := .timeout
    merge := some (.exc "merge")
    runner := .ok .DONE
    tRunning := 1
    tFinal := 2
    nowStr := "now"
    infoText := "Completed job."
    traceback := fun _ => "Traceback: merge" }

/-- A concrete run environment whose engine invocation raises. -/
def cRunEnvEngineFail : RunEnv :=
  { resolve := .timeout
    merge := none
    runner := .error (.exc "engine")
    tRunning := 1
    tFinal := 2
    nowStr := "now"
    infoText := "Completed job."
    traceback := fun _ => "Traceback: engine" }

/-! ### Facts about the cache -/

/-- Folding `min` over a list never exceeds the initial accumulator. -/
lemma foldl_min_le_init (l : List Nat) (a : Nat) : l.foldl min a ≤ a := by
  induction l generalizing a with
  | nil => exact le_refl a
  | cons x xs ih =>
    exact le_trans (ih (min a x)) (min_le_left a x)

/-- Folding `min` over a list is a lower bound of its members. -/
lemma foldl_min_le_mem {l : List Nat} {x : Nat} (hx : x ∈ l) (a : Nat) :
    l.foldl min a ≤ x := by
  induction l generalizing a with
  | nil => cases hx
  | cons y ys ih =>
    rcases List.mem_cons.mp hx with rfl | hx'
    · exact le_trans (foldl_min_le_init ys (min a x)) (min_le_right a x)
    · exact ih hx' (min a y)

/-- Folding `min` returns either the initial accumulator or a member. -/
lemma foldl_min_eq_or_mem (l : List Nat) (a : Nat) :
    l.foldl min a = a ∨ l.foldl min a ∈ l := by
  induction l generalizing a with
  | nil => exact Or.inl rfl
  | cons y ys ih =>
    rcases ih (min a y) with h | h
    · rcases le_total a y with hay | hay
      · rw [List.foldl_cons, h, min_eq_left hay]
        exact Or.inl rfl
      · rw [List.foldl_cons, h, min_eq_right hay]
        exact Or.inr (List.mem_cons.mpr (Or.inl rfl))
    · exact Or.inr (List.mem_cons.mpr (Or.inr h))

/-- `minImportance` agrees with folding `min` over the importances. -/
lemma minImportance_cons (c : JobMessage) (cs : List JobMessage) :
    minImportance (c :: cs) = (cs.map (·.importance)).foldl min c.importance := by
  simp [minImportance, List.foldl_map]

/-- The cached minimum is a lower bound of every cached importance. -/
lemma minImportance_le_of_mem {m : JobMessage} {cache : List JobMessage}
    (h : m ∈ cache) : minImportance cache ≤ m.importance := by
  match cache with
  | [] => cases h
  | c :: cs =>
    rw [minImportance_cons]
    rcases List.mem_cons.mp h with rfl | h'
    · exact foldl_min_le_init _ _
    · exact foldl_min_le_mem (List.mem_map_of_mem (·.importance) h') _

/-- A non-empty cache attains its minimum importance. -/
lemma exists_minImportance (cache : List JobMessage) (hne : cache ≠ []) :
    ∃ m ∈ cache, m.importance = minImportance cache := by
  match cache with
  | [] => exact absurd rfl hne
  | c :: cs =>
    rw [minImportance_cons]
    rcases foldl_min_eq_or_mem (cs.map (·.importance)) c.importance with h | h
    · exact ⟨c, List.mem_cons.mpr (Or.inl rfl), h.symm⟩
    · rcases List.mem_map.mp h with ⟨m, hm, hval⟩
      exact ⟨m, List.mem_cons.mpr (Or.inr hm), hval⟩

/-- On a full cache, an admitted record (importance `>=` the minimum) is
appended after the first minimum-importance record is deleted; the deletion
happens inside the original ten records. -/
lemma putCache_full_accept {cache : List JobMessage} {msg : JobMessage}
    (hlen : ¬cache.length < cacheSize)
    (himp : minImportance cache ≤ msg.importance) :
    putCache cache msg =
      cache.eraseP (fun m => m.importance == minImportance cache) ++ [msg] := by
  have hne : cache ≠ [] := by
    intro h
    rw [h] at hlen
    exact hlen (by decide)
  rcases exists_minImportance cache hne with ⟨m, hm, hval⟩
  have hpm : (fun m => m.importance == minImportance cache) m = true := by
    simp [hval]
  have herase : (cache ++ [msg]).eraseP (fun m => m.importance == minImportance cache)
      = cache.eraseP (fun m => m.importance == minImportance cache) ++ [msg] :=
    @List.eraseP_append_left JobMessage
      (fun m => m.importance == minImportance cache) m hpm cache [msg] hm
  simp only [putCache, if_neg hlen, if_pos himp]
  exact herase

/-- On a full cache, a record below the minimum importance is rejected. -/
lemma putCache_full_reject {cache : List JobMessage} {msg : JobMessage}
    (hlen : ¬cache.length < cacheSize)
    (himp : msg.importance < minImportance cache) :
    putCache cache msg = cache := by
  rw [putCache, if_neg hlen, if_neg (by omega)]

/-- A `put` on a non-full cache appends the record. -/
lemma putCache_length_of_lt {cache : List JobMessage} (msg : JobMessage)
    (h : cache.length < cacheSize) :
    (putCache cache msg).length = cache.length + 1 := by
  rw [putCache, if_pos h]
  simp

/-- A `put` on a full cache keeps it at exactly `cacheSize` records. -/
lemma putCache_length_of_full {cache : List JobMessage} (msg : JobMessage)
    (h : cache.length = cacheSize) :
    (putCache cache msg).length = cacheSize := by
  have hlen : ¬cache.length < cacheSize := by omega
  by_cases himp : minImportance cache ≤ msg.importance
  · rw [putCache_full_accept hlen himp]
    have hne : cache ≠ [] := by
      intro hnil
      rw [hnil] at h
      exact absurd h.symm (by decide)
    rcases exists_minImportance cache hne with ⟨m, hm, hval⟩
    have h1 : (cache.eraseP (fun m => m.importance == minImportance cache)).length + 1
        = cache.length :=
      List.length_eraseP_add_one hm (by simp [hval])
    simp only [List.length_append, List.length_cons, List.length_nil]
    omega
  · rw [putCache_full_reject hlen (by omega)]
    exact h

/-- A `put` never pushes the cache beyond `cacheSize` records. -/
lemma putCache_length_le {cache : List JobMessage} (msg : JobMessage)
    (h : cache.length ≤ cacheSize) :
    (putCache cache msg).length ≤ cacheSize := by
  rcases Nat.lt_or_ge cache.length cacheSize with hlt | hge
  · rw [putCache_length_of_lt msg hlt]
    omega
  · have heq : cache.length = cacheSize := le_antisymm h hge
    rw [putCache_length_of_full msg heq]

/-- Any sequence of `put`s starting from a within-bounds cache stays
within bounds. -/
lemma length_foldl_putCache_le (msgs : List JobMessage) :
    ∀ start : List JobMessage, start.length ≤ cacheSize →
      (List.foldl putCache start msgs).length ≤ cacheSize := by
  induction msgs with
  | nil => intro start h; exact h
  | cons m ms ih =>
    intro start h
    exact ih (putCache start m) (putCache_length_le m h)

/-- C2: on a cache holding exactly 10 records, `JobLogQueues.put` of a
record of importance strictly above the cached minimum deletes exactly one
record of minimum importance — the first such record in cache order — and
appends the new record, while a record of importance strictly below the
minimum leaves the cache unchanged. -/
theorem putCache_admission_at_capacity (cache : List JobMessage)
    (msg : JobMessage) (hlen : cache.length = 10) :
    (minImportance cache < msg.importance →
      putCache cache msg =
        cache.eraseP (fun m => m.importance == minImportance cache) ++ [msg] ∧
      (cache.eraseP (fun m => m.importance == minImportance cache)).length + 1
        = cache.length) ∧
    (msg.importance < minImportance cache → putCache cache msg = cache) := by
  have hlen' : ¬cache.length < cacheSize := by
    simp only [cacheSize]
    omega
  have hne : cache ≠ [] := by
    intro hnil
    rw [hnil] at hlen
    exact absurd hlen (by decide)
  constructor
  · intro hgt
    refine ⟨putCache_full_accept hlen' (le_of_lt hgt), ?_⟩
    rcases exists_minImportance cache hne with ⟨m, hm, hval⟩
    exact List.length_eraseP_add_one hm (by simp [hval])
  · intro hlt
    exact putCache_full_reject hlen' hlt

theorem putCache_admission_at_capacity_witness :
    wCache.length = 10 ∧
    (minImportance wCache < (wMsg 5).importance ∧
      putCache wCache (wMsg 5) =
        wCache.eraseP (fun m => m.importance == minImportance wCache) ++ [wMsg 5] ∧
      (wCache.eraseP (fun m => m.importance == minImportance wCache)).length + 1
        = wCache.length) ∧
    ((wMsg 0).importance < minImportance wCache ∧
      putCache wCache (wMsg 0) = wCache) :=
  ⟨by decide,
   ⟨by decide, (putCache_admission_at_capacity wCache (wMsg 5) (by decide)).1
      (by decide)⟩,
   ⟨by decide, (putCache_admission_at_capacity wCache (wMsg 0) (by decide)).2
      (by decide)⟩⟩

/-- C9: the log cache never holds more than 10 records: starting empty, any
sequence of `put`s stays within 10; below 10 records each `put` grows the
cache by one; at exactly 10 records every `put` leaves exactly 10 (an
admitted record displaces exactly one minimum-importance record, the
minimum-or-equal case included). -/
theorem log_cache_bounded :
    (∀ msgs : List JobMessage,
      (List.foldl putCache [] msgs).length ≤ 10) ∧
    (∀ (cache : List JobMessage) (msg : JobMessage), cache.length < 10 →
      (putCache cache msg).length = cache.length + 1) ∧
    (∀ (cache : List JobMessage) (msg : JobMessage), cache.length = 10 →
      (putCache cache msg).length = 10) := by
  have hsize : cacheSize = 10 := rfl
  refine ⟨?_, ?_, ?_⟩
  · intro msgs
    rw [← hsize]
    exact length_foldl_putCache_le msgs [] (by simp)
  · intro cache msg h
    exact putCache_length_of_lt msg (by omega)
  · intro cache msg h
    rw [← hsize]
    exact putCache_length_of_full msg (by omega)

theorem log_cache_bounded_witness :
    (List.foldl putCache [] [wMsg 1, wMsg 2, wMsg 3]).length ≤ 10 ∧
    (putCache [wMsg 1] (wMsg 2)).length = ([wMsg 1] : List JobMessage).length + 1 ∧
    (putCache wCache (wMsg 1)).length = 10 :=
  ⟨log_cache_bounded.1 [wMsg 1, wMsg 2, wMsg 3],
   log_cache_bounded.2.1 [wMsg 1] (wMsg 2) (by decide),
   log_cache_bounded.2.2 wCache (wMsg 1) (by decide)⟩

/-! ### The worker launcher (C7) -/

/-- C7: a worker subprocess exiting with a non-zero return code makes
`SubprocessSdkWorker.run` raise a failure carrying that exit code, and on
every exit path of the wait (normal return or any exception) the child is
killed whenever still alive at the `finally` block and the logging sidecar
server is always stopped. -/
theorem subprocess_worker_run_spec (b : ProcBehavior) :
    (∀ rc : Int, b.wait = .ok rc → rc ≠ 0 →
      (subprocess_worker_run b).raised = some (Err.workerExit rc)) ∧
    (subprocess_worker_run b).loggingServerStopped = true ∧
    (b.aliveAtFinally = true → (subprocess_worker_run b).killed = true) := by
  refine ⟨?_, ?_, ?_⟩
  · intro rc hrc hne
    simp [subprocess_worker_run, hrc, hne]
  · cases hw : b.wait <;> simp [subprocess_worker_run, hw]
  · intro h
    cases hw : b.wait <;> simp [subprocess_worker_run, hw, h]

theorem subprocess_worker_run_spec_witness :
    (subprocess_worker_run ⟨.ok 3, true⟩).raised = some (Err.workerExit 3) ∧
    (subprocess_worker_run ⟨.ok 3, true⟩).loggingServerStopped = true ∧
    (subprocess_worker_run ⟨.ok 3, true⟩).killed = true :=
  ⟨(subprocess_worker_run_spec ⟨.ok 3, true⟩).1 3 rfl (by decide),
   (subprocess_worker_run_spec ⟨.ok 3, true⟩).2.1,
   (subprocess_worker_run_spec ⟨.ok 3, true⟩).2.2 rfl⟩

/-! ### Dependency update before execution (C6, C10) -/

/-- C6: during `_update_dependencies`, a `TimeoutError` from the artifact
registry's resolve is swallowed — the run proceeds with the dependencies
already present and nothing is raised — while any other exception raised
during dependency resolution propagates to the caller. -/
theorem update_dependencies_timeout_vs_error (envs : EnvMap)
    (prov : ProvisionInfo) (out : ResolveOutcome) :
    (out = .timeout → update_dependencies envs prov out = (envs, prov, none)) ∧
    (∀ e, out = .failure e →
      update_dependencies envs prov out = (envs, prov, some e)) := by
  constructor
  · intro h; subst h; rfl
  · intro e h; subst h; rfl

theorem update_dependencies_timeout_vs_error_witness :
    update_dependencies cGoodEnvs cProv .timeout = (cGoodEnvs, cProv, none) ∧
    update_dependencies cGoodEnvs cProv (.failure (.exc "boom"))
      = (cGoodEnvs, cProv, some (.exc "boom")) :=
  ⟨(update_dependencies_timeout_vs_error cGoodEnvs cProv .timeout).1 rfl,
   (update_dependencies_timeout_vs_error cGoodEnvs cProv
      (.failure (.exc "boom"))).2 (.exc "boom") rfl⟩

/-- C10: `_update_dependencies` clears the provisioning info's
`retrieval_token` exactly when the resolve call returns a mapping without
timing out (given that the returned mapping covers the iterated keys, as
the registry guarantees for its own registration); when resolve times out,
both the provisioning info and the environments are left completely
unchanged, and when resolve raises otherwise the token is not cleared
either. -/
theorem update_dependencies_frame (envs : EnvMap) (prov : ProvisionInfo)
    (out : ResolveOutcome)
    (hcover : ∀ deps, out = .resolved deps →
      (update_dependency_sets envs deps).isSome = true) :
    (out = .timeout → update_dependencies envs prov out = (envs, prov, none)) ∧
    (∀ e, out = .failure e →
      (update_dependencies envs prov out).2.1 = prov) ∧
    (∀ deps, out = .resolved deps →
      (update_dependencies envs prov out).2.1 = clearRetrievalToken prov) := by
  refine ⟨?_, ?_, ?_⟩
  · intro h; subst h; rfl
  · intro e h; subst h; rfl
  · intro deps h
    subst h
    rcases Option.isSome_iff_exists.mp (hcover deps rfl) with ⟨envs', he⟩
    simp [update_dependencies, he]

theorem update_dependencies_frame_witness :
    update_dependencies cGoodEnvs cProv .timeout = (cGoodEnvs, cProv, none) ∧
    (update_dependencies cGoodEnvs cProv
        (.resolved (extract_dependency_sets cGoodEnvs))).2.1
      = clearRetrievalToken cProv :=
  ⟨(update_dependencies_frame cGoodEnvs cProv .timeout
      (by intro d h; cases h)).1 rfl,
   (update_dependencies_frame cGoodEnvs cProv
      (.resolved (extract_dependency_sets cGoodEnvs))
      (by intro d h; cases h; decide)).2.2
      (extract_dependency_sets cGoodEnvs) rfl⟩

/-! ### State transitions and fan-out (C5, C8) -/

/-- A `set_state` to the current state is a complete no-op. -/
lemma set_state_noop {j : BeamJobState} {s : JobState} (t : Nat)
    (h : s = j.current_state) : set_state j s t = j := by
  simp [set_state, abstract_set_state, if_pos h]

/-- A `set_state` to a different state records the transition and pushes
the event to every state subscriber queue. -/
lemma set_state_transition {j : BeamJobState} {s : JobState} (t : Nat)
    (h : s ≠ j.current_state) :
    set_state j s t =
      { j with
          current_state := s
          state_history := j.state_history ++ [(s, t)]
          state_queues := j.state_queues.map (fun q => q ++ [(s, t)]) } := by
  simp [set_state, abstract_set_state, if_neg h]

/-- Running a request sequence appends to every subscriber queue exactly
the subsequence of distinct consecutive states requested. -/
lemma run_set_states_queues (reqs : List (JobState × Nat)) :
    ∀ j : BeamJobState,
      (run_set_states j reqs).state_queues
        = j.state_queues.map
            (fun q => q ++ distinctConsecutive j.current_state reqs) := by
  induction reqs with
  | nil =>
    intro j
    simp [run_set_states, distinctConsecutive]
  | cons r rest ih =>
    intro j
    obtain ⟨s, t⟩ := r
    by_cases h : s = j.current_state
    · rw [show run_set_states j ((s, t) :: rest)
          = run_set_states (set_state j s t) rest from rfl,
        set_state_noop t h, ih j]
      simp [distinctConsecutive, h]
    · rw [show run_set_states j ((s, t) :: rest)
          = run_set_states (set_state j s t) rest from rfl,
        set_state_transition t h, ih]
      simp [distinctConsecutive, h, List.map_map, Function.comp_def,
        List.append_assoc]

/-- C5: a `set_state` to the current state publishes nothing and changes
nothing; a `set_state` to a different state pushes exactly one
`(new_state, timestamp)` event to every registered state subscriber queue
and records it in the history; consequently a request sequence delivers to
every subscriber exactly the subsequence of distinct consecutive states
requested. -/
theorem set_state_event_delivery (j : BeamJobState) (s : JobState) (t : Nat)
    (reqs : List (JobState × Nat)) :
    (s = j.current_state → set_state j s t = j) ∧
    (s ≠ j.current_state →
      (set_state j s t).state_queues
        = j.state_queues.map (fun q => q ++ [(s, t)]) ∧
      (set_state j s t).current_state = s ∧
      (set_state j s t).state_history = j.state_history ++ [(s, t)]) ∧
    (run_set_states j reqs).state_queues
      = j.state_queues.map
          (fun q => q ++ distinctConsecutive j.current_state reqs) := by
  refine ⟨fun h => set_state_noop t h, fun h => ?_, run_set_states_queues reqs j⟩
  rw [set_state_transition t h]
  exact ⟨rfl, rfl, rfl⟩

theorem set_state_event_delivery_witness :
    (set_state cJobRunning .RUNNING 5 = cJobRunning) ∧
    ((set_state cJobRunning .DONE 5).state_queues
        = cJobRunning.state_queues.map (fun q => q ++ [(.DONE, 5)]) ∧
      (set_state cJobRunning .DONE 5).current_state = .DONE ∧
      (set_state cJobRunning .DONE 5).state_history
        = cJobRunning.state_history ++ [(.DONE, 5)]) ∧
    (run_set_states cJobRunning
        [(.RUNNING, 5), (.DONE, 6), (.DONE, 7)]).state_queues
      = cJobRunning.state_queues.map
          (fun q => q ++ distinctConsecutive cJobRunning.current_state
            [(.RUNNING, 5), (.DONE, 6), (.DONE, 7)]) :=
  ⟨(set_state_event_delivery cJobRunning .RUNNING 5 []).1 (by decide),
   (set_state_event_delivery cJobRunning .DONE 5 []).2.1 (by decide),
   (set_state_event_delivery cJobRunning .DONE 5
      [(.RUNNING, 5), (.DONE, 6), (.DONE, 7)]).2.2⟩

/-- C8: `cancel` on a terminal state changes nothing and publishes no
event; `cancel` on any non-terminal state passes through `CANCELLING` and
ends `CANCELLED`. -/
theorem cancel_spec (j : BeamJobState) (t1 t2 : Nat) :
    (is_terminal_state j.current_state = true → cancel j t1 t2 = j) ∧
    (is_terminal_state j.current_state = false →
      (set_state j .CANCELLING t1).current_state = .CANCELLING ∧
      (cancel j t1 t2).current_state = .CANCELLED) := by
  constructor
  · intro h
    simp [cancel, h]
  · intro h
    have hmid : (set_state j .CANCELLING t1).current_state = .CANCELLING := by
      by_cases hc : JobState.CANCELLING = j.current_state
      · rw [set_state_noop t1 hc, ← hc]
      · rw [set_state_transition t1 hc]
    refine ⟨hmid, ?_⟩
    have hne : JobState.CANCELLED ≠ (set_state j .CANCELLING t1).current_state := by
      rw [hmid]
      intro hh
      cases hh
    simp only [cancel, h, Bool.false_eq_true, if_false]
    rw [set_state_transition t2 hne]

theorem cancel_spec_witness :
    (cancel cJobDone 3 4 = cJobDone) ∧
    ((set_state cJobRunning .CANCELLING 3).current_state = .CANCELLING ∧
      (cancel cJobRunning 3 4).current_state = .CANCELLED) :=
  ⟨(cancel_spec cJobDone 3 4).1 (by decide),
   (cancel_spec cJobRunning 3 4).2 (by decide)⟩

/-! ### The state stream (C4) -/

/-- The stream loop passes a fully non-terminal prefix through unchanged
and continues into the tail. -/
lemma takeThroughTerminal_append {xs : List (JobState × Nat)}
    (h : ∀ e ∈ xs, is_terminal_state e.1 = false) (ys : List (JobState × Nat)) :
    takeThroughTerminal (xs ++ ys) = xs ++ takeThroughTerminal ys := by
  induction xs with
  | nil => rfl
  | cons x rest ih =>
    have hx := h x (List.mem_cons_self x rest)
    simp only [List.cons_append, takeThroughTerminal, hx, Bool.false_eq_true,
      if_false, List.cons.injEq, true_and]
    exact ih (fun e he => h e (List.mem_cons.mpr (Or.inr he)))

/-- Everything the stream loop yields except its last event is
non-terminal: nothing is ever yielded past a terminal event. -/
lemma takeThroughTerminal_dropLast :
    ∀ xs : List (JobState × Nat),
      ∀ e ∈ (takeThroughTerminal xs).dropLast, is_terminal_state e.1 = false := by
  intro xs
  induction xs with
  | nil => intro e he; cases he
  | cons x rest ih =>
    intro e he
    cases hx : is_terminal_state x.1 with
    | true =>
      rw [takeThroughTerminal, if_pos hx] at he
      simp at he
    | false =>
      rw [takeThroughTerminal, if_neg (by simp [hx])] at he
      cases htl : takeThroughTerminal rest with
      | nil =>
        rw [htl] at he
        simp at he
      | cons y ys =>
        rw [htl, List.dropLast_cons₂] at he
        rcases List.mem_cons.mp he with rfl | he'
        · exact hx
        · exact ih e (htl ▸ he')

/-- C4: a subscriber joining after N transitions receives the full prior
history, in order, before any newly published event (when the job is not
yet terminal), receives exactly the history and nothing more when the
history already ends in a terminal state, and in all cases the stream
yields nothing after its first terminal event. -/
theorem get_state_stream_spec (j : BeamJobState)
    (live : List (JobState × Nat)) :
    ((∀ e ∈ j.state_history, is_terminal_state e.1 = false) →
      get_state_stream j live
        = j.state_history ++ takeThroughTerminal live) ∧
    (∀ hs lastEv, j.state_history = hs ++ [lastEv] →
      (∀ e ∈ hs, is_terminal_state e.1 = false) →
      is_terminal_state lastEv.1 = true →
      get_state_stream j live = j.state_history) ∧
    (∀ e ∈ (get_state_stream j live).dropLast,
      is_terminal_state e.1 = false) := by
  refine ⟨?_, ?_, ?_⟩
  · intro h
    exact takeThroughTerminal_append h live
  · intro hs lastEv hhist hpre hterm
    rw [get_state_stream, with_state_history, hhist, List.append_assoc,
      takeThroughTerminal_append hpre, List.singleton_append,
      takeThroughTerminal, if_pos hterm]
  · exact takeThroughTerminal_dropLast _

theorem get_state_stream_spec_witness :
    (get_state_stream cJobRunning [(.DONE, 2), (.CANCELLED, 9)]
      = cJobRunning.state_history
        ++ takeThroughTerminal [(.DONE, 2), (.CANCELLED, 9)]) ∧
    (get_state_stream cJobDone [(.CANCELLED, 9)] = cJobDone.state_history) ∧
    is_terminal_state (JobState.STARTING, 0).1 = false :=
  ⟨(get_state_stream_spec cJobRunning [(.DONE, 2), (.CANCELLED, 9)]).1
      (by decide),
   (get_state_stream_spec cJobDone [(.CANCELLED, 9)]).2.1
      [(.STARTING, 0), (.RUNNING, 1)] (.DONE, 2) (by decide) (by decide)
      (by decide),
   (get_state_stream_spec cJobRunning [(.DONE, 2), (.CANCELLED, 9)]).2.2
      (.STARTING, 0) (by decide)⟩

/-! ### The dependency-set round trip (C3) -/

/-- Rewriting a dependency list with itself is the identity. -/
lemma updateConcrete_self (s : ConcreteEnv) :
    updateConcrete s s.dependencies = s := rfl

/-- Dictionary lookup steps over a non-matching head entry. -/
lemma lookupDeps_cons_of_ne {x : (String × Nat) × List ArtifactInformation}
    {xs : DepsMap} {k : String × Nat} (h : x.1 ≠ k) :
    lookupDeps (x :: xs) k = lookupDeps xs k := by
  simp [lookupDeps, List.find?_cons_of_neg, h]

/-- Dictionary lookup returns a matching head entry. -/
lemma lookupDeps_cons_of_eq {x : (String × Nat) × List ArtifactInformation}
    {xs : DepsMap} {k : String × Nat} (h : x.1 = k) :
    lookupDeps (x :: xs) k = some x.2 := by
  simp [lookupDeps, List.find?_cons_of_pos, h]

/-- A hit in the front part of a concatenated dictionary wins. -/
lemma lookupDeps_append_of_some {xs ys : DepsMap} {k : String × Nat}
    {v : List ArtifactInformation} (h : lookupDeps xs k = some v) :
    lookupDeps (xs ++ ys) k = some v := by
  induction xs with
  | nil => simp [lookupDeps] at h
  | cons x xt ih =>
    by_cases hx : x.1 = k
    · rw [lookupDeps_cons_of_eq hx] at h
      rw [List.cons_append, lookupDeps_cons_of_eq hx]
      exact h
    · rw [lookupDeps_cons_of_ne hx] at h
      rw [List.cons_append, lookupDeps_cons_of_ne hx]
      exact ih h

/-- A miss in the front part of a concatenated dictionary falls through. -/
lemma lookupDeps_append_of_none {xs ys : DepsMap} {k : String × Nat}
    (h : lookupDeps xs k = none) :
    lookupDeps (xs ++ ys) k = lookupDeps ys k := by
  induction xs with
  | nil => rfl
  | cons x xt ih =>
    by_cases hx : x.1 = k
    · rw [lookupDeps_cons_of_eq hx] at h
      cases h
    · rw [lookupDeps_cons_of_ne hx] at h
      rw [List.cons_append, lookupDeps_cons_of_ne hx]
      exact ih h

/-- The block of entries extracted from one environment only answers for
its own environment id. -/
lemma lookup_block_of_ne {id id' : String} (hne : id' ≠ id)
    (subs : List ConcreteEnv) (ix : Nat) :
    ∀ j : Nat,
      lookupDeps
        ((List.enumFrom j subs).map (fun q => ((id, q.1), q.2.dependencies)))
        (id', ix) = none := by
  induction subs with
  | nil => intro j; rfl
  | cons s ss ih =>
    intro j
    rw [show List.enumFrom j (s :: ss)
        = (j, s) :: List.enumFrom (j + 1) ss from rfl, List.map_cons]
    rw [lookupDeps_cons_of_ne (by intro hh; exact hne (congrArg Prod.fst hh).symm)]
    exact ih (j + 1)

/-- Looking up `(id, j + ix)` in the block extracted from one
environment's expansion returns the `ix`-th alternative's dependencies. -/
lemma lookup_block_hit (id : String) (subs : List ConcreteEnv) :
    ∀ (j ix : Nat) (h : ix < subs.length),
      lookupDeps
        ((List.enumFrom j subs).map (fun q => ((id, q.1), q.2.dependencies)))
        (id, j + ix) = some ((subs.get ⟨ix, h⟩).dependencies) := by
  induction subs with
  | nil =>
    intro j ix h
    cases h
  | cons s ss ih =>
    intro j ix h
    rw [show List.enumFrom j (s :: ss)
        = (j, s) :: List.enumFrom (j + 1) ss from rfl, List.map_cons]
    cases ix with
    | zero =>
      rw [Nat.add_zero]
      exact lookupDeps_cons_of_eq rfl
    | succ n =>
      rw [lookupDeps_cons_of_ne (by
        intro hh
        have := congrArg Prod.snd hh
        simp only at this
        omega)]
      have hrec := ih (j + 1) n (Nat.lt_of_succ_lt_succ h)
      rw [show j + (n + 1) = (j + 1) + n from by omega]
      exact hrec

/-- When every lookup restores the alternative's own dependency list, the
inner rewrite loop reproduces the expansion unchanged. -/
lemma updateSubEnvs_enumFrom (id : String) (resolved : DepsMap)
    (subs : List ConcreteEnv) :
    ∀ j : Nat,
      (∀ ix (h : ix < subs.length),
        lookupDeps resolved (id, j + ix)
          = some ((subs.get ⟨ix, h⟩).dependencies)) →
      updateSubEnvs id resolved (List.enumFrom j subs) = some subs := by
  induction subs with
  | nil => intro j _; rfl
  | cons s ss ih =>
    intro j hl
    have h0 := hl 0 (Nat.succ_pos _)
    rw [Nat.add_zero] at h0
    have hrest : updateSubEnvs id resolved (List.enumFrom (j + 1) ss)
        = some ss := by
      apply ih (j + 1)
      intro ix h
      have := hl (ix + 1) (Nat.succ_lt_succ h)
      rw [show j + (ix + 1) = (j + 1) + ix from by omega] at this
      exact this
    rw [show List.enumFrom j (s :: ss)
        = (j, s) :: List.enumFrom (j + 1) ss from rfl]
    rw [updateSubEnvs, h0, hrest]
    rfl

/-- With correctly-restoring lookups and a shape-preserving environment,
one environment round-trips through the rewrite unchanged. -/
lemma updateOneEnv_roundtrip (id : String) (env : Environment)
    (resolved : DepsMap)
    (hl : ∀ ix (h : ix < (expand_anyof_environments env).length),
      lookupDeps resolved (id, ix)
        = some (((expand_anyof_environments env).get ⟨ix, h⟩).dependencies))
    (hshape : shapePreserved env = true) :
    updateOneEnv id env resolved = some env := by
  have hsubs : updateSubEnvs id resolved (expand_anyof_environments env).enum
      = some (expand_anyof_environments env) := by
    apply updateSubEnvs_enumFrom id resolved _ 0
    intro ix h
    rw [Nat.zero_add]
    exact hl ix h
  rw [updateOneEnv, hsubs]
  cases env with
  | single e => rfl
  | anyOf alts =>
    cases alts with
    | nil => rfl
    | cons a as =>
      cases as with
      | nil =>
        exact absurd hshape (by simp [shapePreserved])
      | cons b bs => rfl

/-- With distinct environment ids, looking up `(env_id, ix)` in the full
extracted mapping returns that environment's `ix`-th expanded dependency
list. -/
lemma extract_lookup :
    ∀ envs : EnvMap, (envs.map Prod.fst).Nodup →
      ∀ p ∈ envs, ∀ ix (h : ix < (expand_anyof_environments p.2).length),
        lookupDeps (extract_dependency_sets envs) (p.1, ix)
          = some (((expand_anyof_environments p.2).get ⟨ix, h⟩).dependencies) := by
  intro envs
  induction envs with
  | nil =>
    intro _ p hp
    cases hp
  | cons q rest ih =>
    intro hnd p hp ix h
    have hext : extract_dependency_sets (q :: rest)
        = ((List.enumFrom 0 (expand_anyof_environments q.2)).map
            (fun r => ((q.1, r.1), r.2.dependencies)))
          ++ extract_dependency_sets rest := by
      simp [extract_dependency_sets, List.enum_eq_enumFrom]
    rcases List.mem_cons.mp hp with rfl | hp'
    · rw [hext]
      apply lookupDeps_append_of_some
      have hhit := lookup_block_hit p.1 (expand_anyof_environments p.2) 0 ix h
      rw [Nat.zero_add] at hhit
      exact hhit
    · rw [hext]
      have hid : p.1 ≠ q.1 := by
        intro hh
        have hmem : q.1 ∈ rest.map Prod.fst :=
          hh ▸ List.mem_map_of_mem Prod.fst hp'
        have hnd' : q.1 ∉ rest.map Prod.fst :=
          (List.nodup_cons.mp (by simpa using hnd)).1
        exact hnd' hmem
      rw [lookupDeps_append_of_none (lookup_block_of_ne hid _ ix 0)]
      exact ih (List.nodup_cons.mp (by simpa using hnd)).2 p hp' ix h

/-- The whole-mapping round trip under restoring lookups. -/
lemma update_dependency_sets_roundtrip_aux (resolved : DepsMap) :
    ∀ envs : EnvMap,
      (∀ p ∈ envs, ∀ ix (h : ix < (expand_anyof_environments p.2).length),
        lookupDeps resolved (p.1, ix)
          = some (((expand_anyof_environments p.2).get ⟨ix, h⟩).dependencies)) →
      (∀ p ∈ envs, shapePreserved p.2 = true) →
      update_dependency_sets envs resolved = some envs := by
  intro envs
  induction envs with
  | nil => intro _ _; rfl
  | cons q rest ih =>
    intro hl hshape
    have hone : updateOneEnv q.1 q.2 resolved = some q.2 :=
      updateOneEnv_roundtrip q.1 q.2 resolved
        (hl q (List.mem_cons_self q rest))
        (hshape q (List.mem_cons_self q rest))
    have hrest : update_dependency_sets rest resolved = some rest :=
      ih (fun p hp => hl p (List.mem_cons.mpr (Or.inr hp)))
        (fun p hp => hshape p (List.mem_cons.mpr (Or.inr hp)))
    rw [update_dependency_sets, hone, hrest]

/-- C3 counterexample: for a composite environment with exactly one
alternative, `update(e, extract(e))` replaces the stored composite by the
bare alternative — the mapping is observably changed. -/
theorem dependency_roundtrip_counterexample :
    update_dependency_sets cSingletonAnyOf
        (extract_dependency_sets cSingletonAnyOf)
      = some [("e", .single { payload := "d", dependencies := [] })] ∧
    update_dependency_sets cSingletonAnyOf
        (extract_dependency_sets cSingletonAnyOf)
      ≠ some cSingletonAnyOf := by
  decide

/-- C3 (amended): for every environment mapping with distinct ids in which
no environment is a composite of exactly one alternative, updating with
exactly the extracted dependency sets succeeds and leaves the mapping
observably unchanged. -/
theorem dependency_roundtrip (envs : EnvMap)
    (hids : (envs.map Prod.fst).Nodup)
    (hshape : ∀ p ∈ envs, shapePreserved p.2 = true) :
    update_dependency_sets envs (extract_dependency_sets envs)
      = some envs :=
  update_dependency_sets_roundtrip_aux (extract_dependency_sets envs) envs
    (extract_lookup envs hids) hshape

theorem dependency_roundtrip_witness :
    (cGoodEnvs.map Prod.fst).Nodup ∧
    (∀ p ∈ cGoodEnvs, shapePreserved p.2 = true) ∧
    update_dependency_sets cGoodEnvs (extract_dependency_sets cGoodEnvs)
      = some cGoodEnvs :=
  ⟨by decide, by decide,
   dependency_roundtrip cGoodEnvs (by decide) (by decide)⟩

/-! ### Exception handling in `_run_job` (C1) -/

/-- `set_state` leaves the job's log fan-out untouched. -/
lemma set_state_log_queues (j : BeamJobState) (s : JobState) (t : Nat) :
    (set_state j s t).log_queues = j.log_queues := by
  by_cases h : s = j.current_state
  · rw [set_state_noop t h]
  · rw [set_state_transition t h]

/-- `set_state` leaves the log handler's id counter untouched. -/
lemma set_state_last_log_id (j : BeamJobState) (s : JobState) (t : Nat) :
    (set_state j s t).last_log_id = j.last_log_id := by
  by_cases h : s = j.current_state
  · rw [set_state_noop t h]
  · rw [set_state_transition t h]

/-- After `set_state` the current state is the requested one. -/
lemma set_state_current (j : BeamJobState) (s : JobState) (t : Nat) :
    (set_state j s t).current_state = s := by
  by_cases h : s = j.current_state
  · rw [set_state_noop t h, ← h]
  · rw [set_state_transition t h]

/-- C1 counterexample: an exception raised during dependency resolution —
part of the asynchronous run sequence — escapes `_run_job` with no error
log message published and without the state transitioning to `FAILED`,
because `_update_dependencies()` and the environment normalization run
before the `try` block. -/
theorem run_job_deps_exception_counterexample :
    (run_job cJob cRunEnvDepsFail).2 = some (Err.exc "boom") ∧
    (run_job cJob cRunEnvDepsFail).1.current_state = JobState.STARTING ∧
    (run_job cJob cRunEnvDepsFail).1.current_state ≠ JobState.FAILED ∧
    (run_job cJob cRunEnvDepsFail).1.log_queues = cJob.log_queues :=
  ⟨rfl, rfl, by decide, rfl⟩

/-- C1 (amended): an exception from dependency resolution or environment
normalization re-raises out of the background thread with no captured log
message and no state change; an exception from engine invocation or
waiting for completion is captured — the job publishes exactly two
error-importance messages to every log subscriber (the first holding the
full traceback, the second the captured `Error running pipeline.` log line
with the traceback appended by the formatter), forces the state to
`FAILED`, and re-raises. -/
theorem run_job_exception_handling (j : BeamJobState) (env : RunEnv)
    (e : Err) :
    ((update_dependencies j.envs j.provision_info env.resolve).2.2 = some e →
      (run_job j env).2 = some e ∧
      (run_job j env).1.current_state = j.current_state ∧
      (run_job j env).1.log_queues = j.log_queues ∧
      (run_job j env).1.state_queues = j.state_queues) ∧
    ((update_dependencies j.envs j.provision_info env.resolve).2.2 = none →
      env.merge = some e →
      (run_job j env).2 = some e ∧
      (run_job j env).1.current_state = j.current_state ∧
      (run_job j env).1.log_queues = j.log_queues) ∧
    ((update_dependencies j.envs j.provision_info env.resolve).2.2 = none →
      env.merge = none → env.runner = .error e →
      (run_job j env).2 = some e ∧
      (run_job j env).1.current_state = JobState.FAILED ∧
      (run_job j env).1.log_queues.queues
        = j.log_queues.queues.map (fun q => q ++
            [{ message_id := toString (j.last_log_id + 1)
               time := env.nowStr
               importance := JOB_MESSAGE_ERROR
               message_text := env.traceback e },
             { message_id := toString (j.last_log_id + 2)
               time := env.nowStr
               importance := JOB_MESSAGE_ERROR
               message_text := "Error running pipeline.\n"
                 ++ env.traceback e }])) := by
  refine ⟨?_, ?_, ?_⟩
  · intro hdeps
    simp only [run_job, hdeps]
    refine ⟨?_, ?_, ?_, ?_⟩ <;> trivial
  · intro hdeps hmerge
    simp only [run_job, hdeps, hmerge]
    refine ⟨?_, ?_, ?_⟩ <;> trivial
  · intro hdeps hmerge hrun
    simp only [run_job, hdeps, hmerge, hrun]
    refine ⟨?_, ?_, ?_⟩
    case _ => trivial
    · rw [set_state_current]
    · rw [set_state_log_queues]
      simp only [handlerEmit, JobLogQueues.put, set_state_log_queues,
        set_state_last_log_id]
      simp [List.map_map, Function.comp_def, List.append_assoc]

theorem run_job_exception_handling_witness :
    ((run_job cJob cRunEnvDepsFail).2 = some (Err.exc "boom") ∧
      (run_job cJob cRunEnvDepsFail).1.current_state = cJob.current_state ∧
      (run_job cJob cRunEnvDepsFail).1.log_queues = cJob.log_queues ∧
      (run_job cJob cRunEnvDepsFail).1.state_queues = cJob.state_queues) ∧
    ((run_job cJob cRunEnvMergeFail).2 = some (Err.exc "merge") ∧
      (run_job cJob cRunEnvMergeFail).1.current_state = cJob.current_state ∧
      (run_job cJob cRunEnvMergeFail).1.log_queues = cJob.log_queues) ∧
    ((run_job cJob cRunEnvEngineFail).2 = some (Err.exc "engine") ∧
      (run_job cJob cRunEnvEngineFail).1.current_state = JobState.FAILED ∧
      (run_job cJob cRunEnvEngineFail).1.log_queues.queues
        = cJob.log_queues.queues.map (fun q => q ++
            [{ message_id := toString (cJob.last_log_id + 1)
               time := cRunEnvEngineFail.nowStr
               importance := JOB_MESSAGE_ERROR
               message_text := cRunEnvEngineFail.traceback (Err.exc "engine") },
             { message_id := toString (cJob.last_log_id + 2)
               time := cRunEnvEngineFail.nowStr
               importance := JOB_MESSAGE_ERROR
               message_text := "Error running pipeline.\n"
                 ++ cRunEnvEngineFail.traceback (Err.exc "engine") }])) :=
  ⟨(run_job_exception_handling cJob cRunEnvDepsFail (Err.exc "boom")).1 rfl,
   (run_job_exception_handling cJob cRunEnvMergeFail (Err.exc "merge")).2.1
      rfl rfl,
   (run_job_exception_handling cJob cRunEnvEngineFail (Err.exc "engine")).2.2
      rfl rfl rfl⟩

end LocalJobService
